import Mathlib

/-!
# Verification of the incremental scrape-orchestration engine (`src/app.py`)

This file gives a shallow embedding of the core engine of the repository:
`process_list_incremental` (src/app.py, lines 498-563), the per-item value
normalization and blank test it performs, the skip/resume predicate, the
batch-checkpoint and browser-recycle cadences, and the outcome-classification
section of the SIAC extractor `check_siac_on_page` (src/app.py, lines 271-274).

Python values that flow through the engine are modelled by `PyVal` (the engine
only ever sees strings and non-empty tuples/lists of strings); the engine's
observable actions (extractor calls, checkpoint-sink invocations, browser
recycles, skips, the final browser close) are recorded in an event trace, and
Python exceptions are modelled by an `Option RunError` alongside the state.
-/

/-- A Python value as the engine sees it: a string, or a non-empty
tuple/list of strings (callers pass `zip`-ped id tuples; checkers may
return tuples such as `(olx_loc, rnt_data)`). `tup h t` stands for the
tuple whose element 0 is `h`. -/
inductive PyVal where
  | str (s : String)
  | tup (hd : String) (tl : List String)
deriving DecidableEq, Repr

/-- Python's default whitespace for `str.strip()` (ASCII range). -/
def isPySpace (c : Char) : Bool :=
  c = ' ' || c = '\t' || c = '\n' || c = '\r' || c = '\x0b' || c = '\x0c'

/-- Python `s.strip()`: drop leading and trailing whitespace. -/
def pyStrip (s : String) : String :=
  ⟨((s.data.dropWhile isPySpace).reverse.dropWhile isPySpace).reverse⟩

/-- Python `s.lower()` on the ASCII letters (every string the claims touch
is ASCII). -/
def pyLowerChar (c : Char) : Char :=
  if 'A' ≤ c ∧ c ≤ 'Z' then Char.ofNat (c.toNat + 32) else c

/-- Python `s.lower()` (ASCII). -/
def pyLower (s : String) : String :=
  ⟨s.data.map pyLowerChar⟩

/-- Python `s.endswith(".0")`. -/
def endsWithDot0 (s : String) : Bool :=
  match s.data.reverse with
  | '0' :: '.' :: _ => true
  | _ => false

/-- Python `s[:-2]`. -/
def dropLast2 (s : String) : String :=
  ⟨s.data.dropLast.dropLast⟩

/-- The placeholder a fresh store is filled with (src/app.py line 508). -/
def placeholder : PyVal := .str "..."

/-- One observable action of the engine. -/
inductive Event where
  | extract (i : Nat) (arg : PyVal)
  | sinkFlush (snapshot : List PyVal)
  | recycleBrowser
  | skipItem (i : Nat)
  | browserClosed
deriving DecidableEq, Repr

/-- A Python exception escaping `process_list_incremental`. -/
inductive RunError where
  | indexError
  | extractorRaised (i : Nat)
  | sinkRaised
deriving DecidableEq, Repr

/-- What one call of the caller-supplied checker does: return a value, or
raise an exception that escapes it. -/
inductive ExtractOutcome where
  | ok (v : PyVal)
  | raise
deriving DecidableEq, Repr

/-- The environment's behavior of the checkpoint callback: whether its k-th
invocation (counting from 0) returns normally (`true`) or raises. -/
def SinkBehavior := Nat → Bool

/-- The cadence options of `process_list_incremental`
(`batch_size`, `refresh_every`; src/app.py lines 504-505). -/
structure Config where
  batchSize : Nat
  refreshEvery : Nat
deriving DecidableEq, Repr

/-- The source defaults: `batch_size = 10`, `refresh_every = 50`. -/
def defaultCfg : Config := ⟨10, 50⟩

/-- The mutable state of the orchestration loop: the `results` list, the
trace of observable events so far, and how many sink invocations happened. -/
structure LoopState where
  results : List PyVal
  trace : List Event
  flushCount : Nat
deriving DecidableEq, Repr

/-- src/app.py line 529:
`has_result = isinstance(results[i], str) and results[i].strip() not in ["", "..."]`. -/
def hasResult (v : PyVal) : Bool :=
  match v with
  | .str s => !(pyStrip s = "" || pyStrip s = "...")
  | .tup _ _ => false

/-- src/app.py lines 542-549: tuples/lists are preserved for complex
checkers; strings are stripped and a trailing `".0"` float artifact
removed. -/
def cleanItem (val : PyVal) : PyVal :=
  match val with
  | .tup h t => .tup h t
  | .str s =>
    let rawStr := pyStrip s
    if endsWithDot0 rawStr then .str (dropLast2 rawStr) else .str rawStr

/-- src/app.py line 551: `check_val = val[0] if isinstance(val, (tuple, list)) else val`. -/
def checkVal (val : PyVal) : String :=
  match val with
  | .tup h _ => h
  | .str s => s

/-- src/app.py line 552:
`not str(check_val).strip() or str(check_val).lower() == "nan"`. -/
def isBlank (val : PyVal) : Bool :=
  pyStrip (checkVal val) = "" || pyLower (checkVal val) = "nan"

/-- src/app.py lines 557-559: assign `results[i] = res`, then
`if callback and (i + 1) % batch_size == 0: await callback(results)`
(the callback may raise; nothing catches it). -/
def assignAndFlush (sink? : Option SinkBehavior) (cfg : Config) (i : Nat)
    (res : PyVal) (st : LoopState) : LoopState × Option RunError :=
  let st2 : LoopState := { st with results := st.results.set i res }
  match sink? with
  | none => (st2, none)
  | some behav =>
    if (i + 1) % cfg.batchSize = 0 then
      let st3 : LoopState :=
        { st2 with trace := st2.trace ++ [.sinkFlush st2.results],
                   flushCount := st2.flushCount + 1 }
      if behav st2.flushCount then (st3, none) else (st3, some .sinkRaised)
    else (st2, none)

/-- One iteration of the `for i, val in enumerate(items)` loop body
(src/app.py lines 527-559): the skip test (which raises `IndexError` when
`i >= len(results)`), the browser recycle at `i > 0 and i % refresh_every == 0`,
the cleaning and blank test, the checker call (which may raise), the
assignment and the batch checkpoint. -/
def stepItem (ext : Nat → PyVal → ExtractOutcome) (sink? : Option SinkBehavior)
    (cfg : Config) (i : Nat) (val : PyVal) (st : LoopState) :
    LoopState × Option RunError :=
  match st.results[i]? with
  | none => (st, some .indexError)
  | some prior =>
    if hasResult prior then
      ({ st with trace := st.trace ++ [.skipItem i] }, none)
    else
      let st1 : LoopState :=
        if 0 < i ∧ i % cfg.refreshEvery = 0 then
          { st with trace := st.trace ++ [.recycleBrowser] }
        else st
      let cleaned := cleanItem val
      if isBlank val then
        assignAndFlush sink? cfg i (.str "N/A") st1
      else
        match ext i cleaned with
        | .raise =>
          ({ st1 with trace := st1.trace ++ [.extract i cleaned] },
           some (.extractorRaised i))
        | .ok res =>
          assignAndFlush sink? cfg i res
            { st1 with trace := st1.trace ++ [.extract i cleaned] }

/-- The item loop of `process_list_incremental`, starting at index `i`:
runs `stepItem` on each item in order; an exception aborts the loop and
propagates. -/
def runItems (ext : Nat → PyVal → ExtractOutcome) (sink? : Option SinkBehavior)
    (cfg : Config) (items : List PyVal) (i : Nat) (st : LoopState) :
    LoopState × Option RunError :=
  match items with
  | [] => (st, none)
  | v :: rest =>
    match stepItem ext sink? cfg i v st with
    | (st', none) => runItems ext sink? cfg rest (i + 1) st'
    | (st', some e) => (st', some e)

/-- src/app.py line 508:
`results = list(existing_results) if existing_results else ["..."] * len(items)`.
Python truthiness: `None` and the empty list both fall to the placeholder
branch; a non-empty seed is copied as-is (no padding, no truncation). -/
def initStore (existing? : Option (List PyVal)) (items : List PyVal) : List PyVal :=
  match existing? with
  | some ex => if ex.isEmpty then List.replicate items.length placeholder else ex
  | none => List.replicate items.length placeholder

/-- src/app.py lines 561-562, the code after the loop:
`if callback: await callback(results)` then `if browser: await browser.close()`.
These lines run only when the loop exited normally; the final callback may
itself raise, in which case the close is skipped too. -/
def finishRun (sink? : Option SinkBehavior) (st : LoopState) :
    LoopState × Option RunError :=
  match sink? with
  | none => ({ st with trace := st.trace ++ [.browserClosed] }, none)
  | some behav =>
    let st2 : LoopState :=
      { st with trace := st.trace ++ [.sinkFlush st.results],
                flushCount := st.flushCount + 1 }
    if behav st.flushCount then
      ({ st2 with trace := st2.trace ++ [.browserClosed] }, none)
    else (st2, some .sinkRaised)

/-- src/app.py lines 498-563, `process_list_incremental`: initialize the
store from `existing_results`, run the item loop from index 0; on normal
loop exit invoke the callback once more with the final store and close the
browser. These two tail actions sit on the happy path (no `finally`), so an
exception escaping the loop skips them. -/
def process_list_incremental (ext : Nat → PyVal → ExtractOutcome)
    (sink? : Option SinkBehavior) (cfg : Config)
    (existing? : Option (List PyVal)) (items : List PyVal) :
    LoopState × Option RunError :=
  match runItems ext sink? cfg items 0 ⟨initStore existing? items, [], 0⟩ with
  | (st, some e) => (st, some e)
  | (st, none) => finishRun sink? st

/-- An extractor that never raises, built from a plain function. -/
def extOk (f : Nat → PyVal → PyVal) : Nat → PyVal → ExtractOutcome :=
  fun i v => .ok (f i v)

/-- Number of events of the trace satisfying `p`. -/
def countE (p : Event → Bool) (tr : List Event) : Nat :=
  (tr.filter p).length

/-- Is this event a checker call for index `j`? -/
def isExtractAt (j : Nat) : Event → Bool
  | .extract i _ => i == j
  | _ => false

/-- Is this event a skip of index `j`? -/
def isSkipAt (j : Nat) : Event → Bool
  | .skipItem i => i == j
  | _ => false

/-- Is this event a checkpoint-sink invocation? -/
def isSink : Event → Bool
  | .sinkFlush _ => true
  | _ => false

/-- Is this event a browser recycle? -/
def isRecycle : Event → Bool
  | .recycleBrowser => true
  | _ => false

/-- How many times the checker was called for index `j`. -/
def countExtract (j : Nat) (tr : List Event) : Nat := countE (isExtractAt j) tr

/-- How many times index `j` was skipped. -/
def countSkip (j : Nat) (tr : List Event) : Nat := countE (isSkipAt j) tr

/-- How many times the checkpoint sink was invoked. -/
def countSink (tr : List Event) : Nat := countE isSink tr

/-- How many times the browser was recycled. -/
def countRecycle (tr : List Event) : Nat := countE isRecycle tr

/-! ## The SIAC extractor's outcome classification (src/app.py) -/

/-- src/app.py line 36. -/
def SIAC_TEXT_REGISTERED : List Char := "Animal com registo no SIAC".data

/-- src/app.py line 37. -/
def SIAC_TEXT_NOT_REGISTERED : List Char := "Animal sem registo".data

/-- src/app.py line 38. -/
def SIAC_TEXT_MISSING : List Char :=
  "Animal com registo no SIAC e que se encontra desaparecido".data

/-- Does `needle` start `haystack`? (Python `s.startswith`, on char lists.) -/
def startsSeq : List Char → List Char → Bool
  | [], _ => true
  | _ :: _, [] => false
  | a :: as, b :: bs => a == b && startsSeq as bs

/-- Python's substring test `needle in haystack`, on char lists. -/
def containsSeq (needle : List Char) : List Char → Bool
  | [] => needle.isEmpty
  | b :: bs => startsSeq needle (b :: bs) || containsSeq needle bs

/-- src/app.py lines 271-277, the outcome checks of `check_siac_on_page`
applied to the page content, in source order; `none` when no signal text is
present (the code then retries or returns the unknown marker). -/
def classifySiacContent (content : List Char) : Option String :=
  if containsSeq SIAC_TEXT_MISSING content then some "🚩 DESAPARECIDO"
  else if containsSeq SIAC_TEXT_REGISTERED content then some "✅ REGISTADO"
  else if containsSeq SIAC_TEXT_NOT_REGISTERED content then some "❌ SEM REGISTO"
  else none

/-! ## Auxiliary definitions for stating and proving properties -/

/-- A sink whose invocations all return normally (or no sink at all). -/
def SinkOk (sink? : Option SinkBehavior) : Prop :=
  ∀ b, sink? = some b → ∀ k, b k = true

/-- The events a processed (non-skipped) item at index `i` contributes
before the checker call: the browser recycle. -/
def recycleTl (cfg : Config) (i : Nat) : List Event :=
  if 0 < i ∧ i % cfg.refreshEvery = 0 then [.recycleBrowser] else []

/-- The checker-call event of a processed item (absent for blank items). -/
def extractTl (i : Nat) (v : PyVal) : List Event :=
  if isBlank v then [] else [.extract i (cleanItem v)]

/-- The value a processed item stores when the checker `f` never raises. -/
def stepVal (f : Nat → PyVal → PyVal) (i : Nat) (v : PyVal) : PyVal :=
  if isBlank v then .str "N/A" else f i (cleanItem v)

/-- The checkpoint event a processed item at index `i` contributes. -/
def flushTl (sink? : Option SinkBehavior) (cfg : Config) (i : Nat)
    (rs : List PyVal) : List Event :=
  if sink?.isSome ∧ (i + 1) % cfg.batchSize = 0 then [.sinkFlush rs] else []

/-- How much a processed item at index `i` advances the sink-call counter. -/
def flushInc (sink? : Option SinkBehavior) (cfg : Config) (i : Nat) : Nat :=
  if sink?.isSome ∧ (i + 1) % cfg.batchSize = 0 then 1 else 0

/-- What a processed item's final stored value is, as a function of the
prior entry and the raw item, for a checker `f` that never raises. -/
def processedVal (f : Nat → PyVal → PyVal) (j : Nat) (v prior : PyVal) : PyVal :=
  if hasResult prior then prior
  else if isBlank v then .str "N/A"
  else f j (cleanItem v)

/-- Is this event the final browser close? -/
def isClosed : Event → Bool
  | .browserClosed => true
  | _ => false

/-- A checker that classifies every item as the fixed string `"OK"`. -/
def constOK : Nat → PyVal → PyVal := fun _ _ => .str "OK"

/-- A checker whose every call raises (models a Session-fatal fault that
escapes the extractor). -/
def raiseExt : Nat → PyVal → ExtractOutcome := fun _ _ => .raise

/-- A sink whose every invocation returns normally. -/
def sinkTrue : SinkBehavior := fun _ => true

/-- A sink whose every invocation raises. -/
def sinkFalse : SinkBehavior := fun _ => false

/-! ## Counting lemmas -/

theorem countE_nil (p : Event → Bool) : countE p [] = 0 := rfl

theorem countE_append (p : Event → Bool) (a b : List Event) :
    countE p (a ++ b) = countE p a + countE p b := by
  simp [countE, List.filter_append]

theorem countE_singleton (p : Event → Bool) (e : Event) :
    countE p [e] = if p e then 1 else 0 := by
  simp [countE, List.filter_cons]
  split <;> simp

theorem countE_pos_of_mem {p : Event → Bool} {e : Event} {tr : List Event}
    (hm : e ∈ tr) (hp : p e = true) : 0 < countE p tr := by
  simp only [countE, List.length_pos_iff_ne_nil]
  intro hnil
  have : e ∈ tr.filter p := List.mem_filter.mpr ⟨hm, hp⟩
  simp [hnil] at this

/-! ## Step-level lemmas -/

theorem assignAndFlush_shape (sink? : Option SinkBehavior) (cfg : Config)
    (i : Nat) (res : PyVal) (st : LoopState) :
    ∃ e?, assignAndFlush sink? cfg i res st =
      ({ results := st.results.set i res,
         trace := st.trace ++ flushTl sink? cfg i (st.results.set i res),
         flushCount := st.flushCount + flushInc sink? cfg i }, e?)
      ∧ (e? = none
         ∨ (e? = some .sinkRaised
            ∧ flushTl sink? cfg i (st.results.set i res)
                = [.sinkFlush (st.results.set i res)])) := by
  cases sink? with
  | none =>
    exact ⟨none, by simp [assignAndFlush, flushTl, flushInc], Or.inl rfl⟩
  | some b =>
    by_cases hb : (i + 1) % cfg.batchSize = 0
    · by_cases hbe : b st.flushCount
      · exact ⟨none, by simp [assignAndFlush, hb, hbe, flushTl, flushInc], Or.inl rfl⟩
      · refine ⟨some .sinkRaised, by simp [assignAndFlush, hb, hbe, flushTl, flushInc],
          Or.inr ⟨rfl, by simp [flushTl, hb]⟩⟩
    · exact ⟨none, by simp [assignAndFlush, hb, flushTl, flushInc], Or.inl rfl⟩

theorem assignAndFlush_ok (sink? : Option SinkBehavior) (cfg : Config)
    (i : Nat) (res : PyVal) (st : LoopState) (hsink : SinkOk sink?) :
    assignAndFlush sink? cfg i res st =
      ({ results := st.results.set i res,
         trace := st.trace ++ flushTl sink? cfg i (st.results.set i res),
         flushCount := st.flushCount + flushInc sink? cfg i }, none) := by
  cases sink? with
  | none => simp [assignAndFlush, flushTl, flushInc]
  | some b =>
    by_cases hb : (i + 1) % cfg.batchSize = 0
    · simp [assignAndFlush, hb, hsink b rfl, flushTl, flushInc]
    · simp [assignAndFlush, hb, flushTl, flushInc]

theorem stepItem_none (ext : Nat → PyVal → ExtractOutcome)
    (sink? : Option SinkBehavior) (cfg : Config) (i : Nat) (v : PyVal)
    (st : LoopState) (hget : st.results[i]? = none) :
    stepItem ext sink? cfg i v st = (st, some .indexError) := by
  simp [stepItem, hget]

theorem stepItem_skip (ext : Nat → PyVal → ExtractOutcome)
    (sink? : Option SinkBehavior) (cfg : Config) (i : Nat) (v : PyVal)
    (st : LoopState) (prior : PyVal) (hget : st.results[i]? = some prior)
    (hskip : hasResult prior = true) :
    stepItem ext sink? cfg i v st =
      ({ st with trace := st.trace ++ [.skipItem i] }, none) := by
  simp [stepItem, hget, hskip]

theorem stepItem_run (f : Nat → PyVal → PyVal) (sink? : Option SinkBehavior)
    (cfg : Config) (i : Nat) (v : PyVal) (st : LoopState) (prior : PyVal)
    (hsink : SinkOk sink?) (hget : st.results[i]? = some prior)
    (hskip : hasResult prior = false) :
    stepItem (extOk f) sink? cfg i v st =
      ({ results := st.results.set i (stepVal f i v),
         trace := st.trace ++ recycleTl cfg i ++ extractTl i v
                    ++ flushTl sink? cfg i (st.results.set i (stepVal f i v)),
         flushCount := st.flushCount + flushInc sink? cfg i }, none) := by
  by_cases hrec : 0 < i ∧ i % cfg.refreshEvery = 0
  · by_cases hblank : isBlank v
    · simp only [stepItem, hget, hskip, Bool.false_eq_true, if_false, hrec, if_true,
        hblank, if_true, assignAndFlush_ok _ _ _ _ _ hsink]
      simp [recycleTl, hrec, extractTl, hblank, stepVal, List.append_assoc]
    · simp only [stepItem, hget, hskip, Bool.false_eq_true, if_false, hrec, if_true,
        hblank, Bool.false_eq_true, if_false, extOk, assignAndFlush_ok _ _ _ _ _ hsink]
      simp [recycleTl, hrec, extractTl, hblank, stepVal, List.append_assoc]
  · by_cases hblank : isBlank v
    · simp only [stepItem, hget, hskip, Bool.false_eq_true, if_false, hrec, if_false,
        hblank, if_true, assignAndFlush_ok _ _ _ _ _ hsink]
      simp [recycleTl, hrec, extractTl, hblank, stepVal]
    · simp only [stepItem, hget, hskip, Bool.false_eq_true, if_false, hrec, if_false,
        hblank, Bool.false_eq_true, if_false, extOk, assignAndFlush_ok _ _ _ _ _ hsink]
      simp [recycleTl, hrec, extractTl, hblank, stepVal]

theorem stepItem_shape (ext : Nat → PyVal → ExtractOutcome)
    (sink? : Option SinkBehavior) (cfg : Config) (i : Nat) (v : PyVal)
    (st : LoopState) :
    stepItem ext sink? cfg i v st = (st, some .indexError)
    ∨ stepItem ext sink? cfg i v st =
        ({ st with trace := st.trace ++ [.skipItem i] }, none)
    ∨ stepItem ext sink? cfg i v st =
        ({ st with trace := st.trace ++ recycleTl cfg i ++ [.extract i (cleanItem v)] },
         some (.extractorRaised i))
    ∨ ∃ res e?,
        stepItem ext sink? cfg i v st =
          ({ results := st.results.set i res,
             trace := st.trace ++ recycleTl cfg i ++ extractTl i v
                        ++ flushTl sink? cfg i (st.results.set i res),
             flushCount := st.flushCount + flushInc sink? cfg i }, e?)
        ∧ (e? = none
           ∨ (e? = some .sinkRaised
              ∧ flushTl sink? cfg i (st.results.set i res)
                  = [.sinkFlush (st.results.set i res)])) := by
  rcases hget : st.results[i]? with _ | prior
  · exact Or.inl (stepItem_none _ _ _ _ _ _ hget)
  · by_cases hskip : hasResult prior
    · exact Or.inr (Or.inl (stepItem_skip _ _ _ _ _ _ _ hget hskip))
    · right; right
      by_cases hblank : isBlank v
      · right
        by_cases hrec : 0 < i ∧ i % cfg.refreshEvery = 0
        · obtain ⟨e?, heq, he⟩ := assignAndFlush_shape sink? cfg i (.str "N/A")
            { st with trace := st.trace ++ [.recycleBrowser] }
          refine ⟨.str "N/A", e?, ?_, he⟩
          simp only [stepItem, hget, hskip, Bool.false_eq_true, if_false, hblank, if_true]
          rw [if_pos hrec, heq]
          simp [recycleTl, hrec, extractTl, hblank, List.append_assoc]
        · obtain ⟨e?, heq, he⟩ := assignAndFlush_shape sink? cfg i (.str "N/A") st
          refine ⟨.str "N/A", e?, ?_, he⟩
          simp only [stepItem, hget, hskip, Bool.false_eq_true, if_false, hblank, if_true]
          rw [if_neg hrec, heq]
          simp [recycleTl, hrec, extractTl, hblank]
      · rcases hext : ext i (cleanItem v) with res | _
        · right
          by_cases hrec : 0 < i ∧ i % cfg.refreshEvery = 0
          · obtain ⟨e?, heq, he⟩ := assignAndFlush_shape sink? cfg i res
              { st with trace := (st.trace ++ [.recycleBrowser]) ++ [.extract i (cleanItem v)] }
            refine ⟨res, e?, ?_, he⟩
            simp only [stepItem, hget, hskip, Bool.false_eq_true, if_false, hblank,
              Bool.false_eq_true, if_false, hext]
            rw [if_pos hrec]
            rw [show ({ st with trace := st.trace ++ [Event.recycleBrowser] } : LoopState).trace
                  ++ [Event.extract i (cleanItem v)]
                = (st.trace ++ [Event.recycleBrowser]) ++ [Event.extract i (cleanItem v)] from rfl]
            rw [heq]
            simp [recycleTl, hrec, extractTl, hblank, List.append_assoc]
          · obtain ⟨e?, heq, he⟩ := assignAndFlush_shape sink? cfg i res
              { st with trace := st.trace ++ [.extract i (cleanItem v)] }
            refine ⟨res, e?, ?_, he⟩
            simp only [stepItem, hget, hskip, Bool.false_eq_true, if_false, hblank,
              Bool.false_eq_true, if_false, hext]
            rw [if_neg hrec, heq]
            simp [recycleTl, hrec, extractTl, hblank, List.append_assoc]
        · left
          by_cases hrec : 0 < i ∧ i % cfg.refreshEvery = 0
          · simp only [stepItem, hget, hskip, Bool.false_eq_true, if_false, hblank,
              Bool.false_eq_true, if_false, hext]
            rw [if_pos hrec]
            simp [recycleTl, hrec, List.append_assoc]
          · simp only [stepItem, hget, hskip, Bool.false_eq_true, if_false, hblank,
              Bool.false_eq_true, if_false, hext]
            rw [if_neg hrec]
            simp [recycleTl, hrec]

/-! ## Counting the tails of one step -/

theorem countExtract_recycleTl (j : Nat) (cfg : Config) (i : Nat) :
    countExtract j (recycleTl cfg i) = 0 := by
  unfold recycleTl; split <;> rfl

theorem countSkip_recycleTl (j : Nat) (cfg : Config) (i : Nat) :
    countSkip j (recycleTl cfg i) = 0 := by
  unfold recycleTl; split <;> rfl

theorem countSink_recycleTl (cfg : Config) (i : Nat) :
    countSink (recycleTl cfg i) = 0 := by
  unfold recycleTl; split <;> rfl

theorem countRecycle_recycleTl (cfg : Config) (i : Nat) :
    countRecycle (recycleTl cfg i) =
      if 0 < i ∧ i % cfg.refreshEvery = 0 then 1 else 0 := by
  unfold recycleTl; split <;> rfl

theorem countClosed_recycleTl (cfg : Config) (i : Nat) :
    countE isClosed (recycleTl cfg i) = 0 := by
  unfold recycleTl; split <;> rfl

theorem countExtract_extractTl (j i : Nat) (v : PyVal) :
    countExtract j (extractTl i v) =
      if isBlank v = false ∧ i = j then 1 else 0 := by
  unfold extractTl
  by_cases hb : isBlank v <;> by_cases hij : i = j <;>
    simp [hb, hij, countExtract, countE, List.filter, isExtractAt]

theorem countSkip_extractTl (j i : Nat) (v : PyVal) :
    countSkip j (extractTl i v) = 0 := by
  unfold extractTl; split <;> rfl

theorem countSink_extractTl (i : Nat) (v : PyVal) :
    countSink (extractTl i v) = 0 := by
  unfold extractTl; split <;> rfl

theorem countRecycle_extractTl (i : Nat) (v : PyVal) :
    countRecycle (extractTl i v) = 0 := by
  unfold extractTl; split <;> rfl

theorem countClosed_extractTl (i : Nat) (v : PyVal) :
    countE isClosed (extractTl i v) = 0 := by
  unfold extractTl; split <;> rfl

theorem countExtract_flushTl (j : Nat) (sink? : Option SinkBehavior)
    (cfg : Config) (i : Nat) (rs : List PyVal) :
    countExtract j (flushTl sink? cfg i rs) = 0 := by
  unfold flushTl; split <;> rfl

theorem countSkip_flushTl (j : Nat) (sink? : Option SinkBehavior)
    (cfg : Config) (i : Nat) (rs : List PyVal) :
    countSkip j (flushTl sink? cfg i rs) = 0 := by
  unfold flushTl; split <;> rfl

theorem countSink_flushTl (sink? : Option SinkBehavior) (cfg : Config)
    (i : Nat) (rs : List PyVal) :
    countSink (flushTl sink? cfg i rs) = flushInc sink? cfg i := by
  unfold flushTl flushInc; split <;> rfl

theorem countRecycle_flushTl (sink? : Option SinkBehavior) (cfg : Config)
    (i : Nat) (rs : List PyVal) :
    countRecycle (flushTl sink? cfg i rs) = 0 := by
  unfold flushTl; split <;> rfl

theorem countClosed_flushTl (sink? : Option SinkBehavior) (cfg : Config)
    (i : Nat) (rs : List PyVal) :
    countE isClosed (flushTl sink? cfg i rs) = 0 := by
  unfold flushTl; split <;> rfl


theorem countExtract_append (j : Nat) (a b : List Event) :
    countExtract j (a ++ b) = countExtract j a + countExtract j b :=
  countE_append _ a b

theorem countSkip_append (j : Nat) (a b : List Event) :
    countSkip j (a ++ b) = countSkip j a + countSkip j b :=
  countE_append _ a b

theorem countSink_append (a b : List Event) :
    countSink (a ++ b) = countSink a + countSink b :=
  countE_append _ a b

theorem countRecycle_append (a b : List Event) :
    countRecycle (a ++ b) = countRecycle a + countRecycle b :=
  countE_append _ a b

theorem countExtract_skipItem (j i : Nat) :
    countExtract j [Event.skipItem i] = 0 := rfl

theorem countSkip_skipItem (j i : Nat) :
    countSkip j [Event.skipItem i] = if i = j then 1 else 0 := by
  by_cases hij : i = j
  · subst hij; simp [countSkip, countE, List.filter, isSkipAt]
  · have hb : (i == j) = false := by simpa using hij
    simp [countSkip, countE, List.filter, isSkipAt, hb, hij]

theorem countSink_skipItem (i : Nat) : countSink [Event.skipItem i] = 0 := rfl

theorem countRecycle_skipItem (i : Nat) : countRecycle [Event.skipItem i] = 0 := rfl

theorem countClosed_skipItem (i : Nat) : countE isClosed [Event.skipItem i] = 0 := rfl

theorem countExtract_extractEvt (j i : Nat) (a : PyVal) :
    countExtract j [Event.extract i a] = if i = j then 1 else 0 := by
  by_cases hij : i = j
  · subst hij; simp [countExtract, countE, List.filter, isExtractAt]
  · have hb : (i == j) = false := by simpa using hij
    simp [countExtract, countE, List.filter, isExtractAt, hb, hij]

theorem countSkip_extractEvt (j i : Nat) (a : PyVal) :
    countSkip j [Event.extract i a] = 0 := rfl

theorem countSink_extractEvt (i : Nat) (a : PyVal) :
    countSink [Event.extract i a] = 0 := rfl

theorem countRecycle_extractEvt (i : Nat) (a : PyVal) :
    countRecycle [Event.extract i a] = 0 := rfl

theorem countClosed_extractEvt (i : Nat) (a : PyVal) :
    countE isClosed [Event.extract i a] = 0 := rfl

theorem countExtract_sinkFlushEvt (j : Nat) (s : List PyVal) :
    countExtract j [Event.sinkFlush s] = 0 := rfl

theorem countSkip_sinkFlushEvt (j : Nat) (s : List PyVal) :
    countSkip j [Event.sinkFlush s] = 0 := rfl

theorem countSink_sinkFlushEvt (s : List PyVal) :
    countSink [Event.sinkFlush s] = 1 := rfl

theorem countRecycle_sinkFlushEvt (s : List PyVal) :
    countRecycle [Event.sinkFlush s] = 0 := rfl

theorem countClosed_sinkFlushEvt (s : List PyVal) :
    countE isClosed [Event.sinkFlush s] = 0 := rfl

theorem countExtract_closedEvt (j : Nat) :
    countExtract j [Event.browserClosed] = 0 := rfl

theorem countSkip_closedEvt (j : Nat) :
    countSkip j [Event.browserClosed] = 0 := rfl

theorem countSink_closedEvt : countSink [Event.browserClosed] = 0 := rfl

theorem countRecycle_closedEvt : countRecycle [Event.browserClosed] = 0 := rfl

/-! ## Derived facts about one step (all branches) -/

theorem stepItem_results_length (ext : Nat → PyVal → ExtractOutcome)
    (sink? : Option SinkBehavior) (cfg : Config) (i : Nat) (v : PyVal)
    (st : LoopState) :
    ((stepItem ext sink? cfg i v st).1).results.length = st.results.length := by
  rcases stepItem_shape ext sink? cfg i v st with h | h | h | ⟨res, e?, h, _⟩ <;>
    rw [h] <;> simp [List.length_set]

theorem stepItem_results_frame (ext : Nat → PyVal → ExtractOutcome)
    (sink? : Option SinkBehavior) (cfg : Config) (i : Nat) (v : PyVal)
    (st : LoopState) (j : Nat) (hj : j ≠ i) :
    ((stepItem ext sink? cfg i v st).1).results[j]? = st.results[j]? := by
  rcases stepItem_shape ext sink? cfg i v st with h | h | h | ⟨res, e?, h, _⟩ <;>
    rw [h] <;> simp [List.getElem?_set_ne (Ne.symm hj)]

theorem stepItem_counts_frame (ext : Nat → PyVal → ExtractOutcome)
    (sink? : Option SinkBehavior) (cfg : Config) (i : Nat) (v : PyVal)
    (st : LoopState) (j : Nat) (hj : j ≠ i) :
    countExtract j ((stepItem ext sink? cfg i v st).1).trace
      = countExtract j st.trace
    ∧ countSkip j ((stepItem ext sink? cfg i v st).1).trace
      = countSkip j st.trace := by
  have hij : ¬ i = j := fun h' => hj h'.symm
  rcases stepItem_shape ext sink? cfg i v st with h | h | h | ⟨res, e?, h, _⟩ <;> rw [h]
  · exact ⟨rfl, rfl⟩
  · refine ⟨?_, ?_⟩ <;>
      simp [countExtract_append, countSkip_append, countExtract_skipItem,
        countSkip_skipItem, hij]
  · refine ⟨?_, ?_⟩ <;>
      simp [countExtract_append, countSkip_append, countExtract_recycleTl,
        countSkip_recycleTl, countExtract_extractEvt, countSkip_extractEvt, hij]
  · refine ⟨?_, ?_⟩ <;>
      simp [countExtract_append, countSkip_append, countExtract_recycleTl,
        countSkip_recycleTl, countExtract_extractTl, countSkip_extractTl,
        countExtract_flushTl, countSkip_flushTl, hij]

theorem stepItem_count_extract_self (ext : Nat → PyVal → ExtractOutcome)
    (sink? : Option SinkBehavior) (cfg : Config) (i : Nat) (v : PyVal)
    (st : LoopState) :
    countExtract i ((stepItem ext sink? cfg i v st).1).trace
      ≤ countExtract i st.trace + 1 := by
  rcases stepItem_shape ext sink? cfg i v st with h | h | h | ⟨res, e?, h, _⟩ <;> rw [h]
  · exact Nat.le_succ_of_le (Nat.le_refl _)
  · simp only [countExtract_append, countExtract_skipItem]; omega
  · simp only [countExtract_append, countExtract_recycleTl, countExtract_extractEvt]
    simp
  · simp only [countExtract_append, countExtract_recycleTl, countExtract_extractTl,
      countExtract_flushTl]
    split_ifs <;> omega

theorem stepItem_closed (ext : Nat → PyVal → ExtractOutcome)
    (sink? : Option SinkBehavior) (cfg : Config) (i : Nat) (v : PyVal)
    (st : LoopState) :
    countE isClosed ((stepItem ext sink? cfg i v st).1).trace
      = countE isClosed st.trace := by
  rcases stepItem_shape ext sink? cfg i v st with h | h | h | ⟨res, e?, h, _⟩ <;> rw [h]
  · simp [countE_append, countClosed_skipItem]
  · simp [countE_append, countClosed_recycleTl, countClosed_extractEvt]
  · simp [countE_append, countClosed_recycleTl, countClosed_extractTl,
      countClosed_flushTl]

theorem stepItem_sinkRaised (ext : Nat → PyVal → ExtractOutcome)
    (sink? : Option SinkBehavior) (cfg : Config) (i : Nat) (v : PyVal)
    (st : LoopState)
    (herr : (stepItem ext sink? cfg i v st).2 = some .sinkRaised) :
    ∃ pre, ((stepItem ext sink? cfg i v st).1).trace
      = pre ++ [.sinkFlush ((stepItem ext sink? cfg i v st).1).results] := by
  rcases stepItem_shape ext sink? cfg i v st with h | h | h | ⟨res, e?, h, he⟩
  · rw [h] at herr; simp at herr
  · rw [h] at herr; simp at herr
  · rw [h] at herr; simp at herr
  · rcases he with he | ⟨he, hfl⟩
    · rw [h, he] at herr; simp at herr
    · refine ⟨st.trace ++ recycleTl cfg i ++ extractTl i v, ?_⟩
      rw [h]
      simp only [hfl]

/-! ## Loop-level lemmas -/

theorem runItems_cons (ext : Nat → PyVal → ExtractOutcome)
    (sink? : Option SinkBehavior) (cfg : Config) (v : PyVal)
    (rest : List PyVal) (i : Nat) (st : LoopState) :
    runItems ext sink? cfg (v :: rest) i st =
      match stepItem ext sink? cfg i v st with
      | (st', none) => runItems ext sink? cfg rest (i + 1) st'
      | (st', some e) => (st', some e) := rfl

theorem runItems_length (ext : Nat → PyVal → ExtractOutcome)
    (sink? : Option SinkBehavior) (cfg : Config) :
    ∀ (items : List PyVal) (i : Nat) (st : LoopState),
    ((runItems ext sink? cfg items i st).1).results.length
      = st.results.length := by
  intro items
  induction items with
  | nil => intro i st; rfl
  | cons v rest ih =>
    intro i st
    have hlen := stepItem_results_length ext sink? cfg i v st
    rcases hstep : stepItem ext sink? cfg i v st with ⟨st', e?⟩
    rw [hstep] at hlen
    cases e? with
    | none =>
      have h1 : runItems ext sink? cfg (v :: rest) i st
          = runItems ext sink? cfg rest (i + 1) st' := by
        simp only [runItems_cons, hstep]
      rw [h1, ih]
      exact hlen
    | some e =>
      have h1 : runItems ext sink? cfg (v :: rest) i st = (st', some e) := by
        simp only [runItems_cons, hstep]
      rw [h1]
      exact hlen

theorem runItems_counts_frame (ext : Nat → PyVal → ExtractOutcome)
    (sink? : Option SinkBehavior) (cfg : Config) :
    ∀ (items : List PyVal) (i : Nat) (st : LoopState) (j : Nat), j < i →
    countExtract j ((runItems ext sink? cfg items i st).1).trace
      = countExtract j st.trace
    ∧ countSkip j ((runItems ext sink? cfg items i st).1).trace
      = countSkip j st.trace := by
  intro items
  induction items with
  | nil => intro i st j _; exact ⟨rfl, rfl⟩
  | cons v rest ih =>
    intro i st j hj
    have hcf := stepItem_counts_frame ext sink? cfg i v st j (by omega)
    rcases hstep : stepItem ext sink? cfg i v st with ⟨st', e?⟩
    rw [hstep] at hcf
    cases e? with
    | none =>
      have h1 : runItems ext sink? cfg (v :: rest) i st
          = runItems ext sink? cfg rest (i + 1) st' := by
        simp only [runItems_cons, hstep]
      rw [h1]
      have hih := ih (i + 1) st' j (by omega)
      exact ⟨hih.1.trans hcf.1, hih.2.trans hcf.2⟩
    | some e =>
      have h1 : runItems ext sink? cfg (v :: rest) i st = (st', some e) := by
        simp only [runItems_cons, hstep]
      rw [h1]
      exact hcf

theorem runItems_results_frame (ext : Nat → PyVal → ExtractOutcome)
    (sink? : Option SinkBehavior) (cfg : Config) :
    ∀ (items : List PyVal) (i : Nat) (st : LoopState) (j : Nat), j < i →
    ((runItems ext sink? cfg items i st).1).results[j]? = st.results[j]? := by
  intro items
  induction items with
  | nil => intro i st j _; rfl
  | cons v rest ih =>
    intro i st j hj
    have hrf := stepItem_results_frame ext sink? cfg i v st j (by omega)
    rcases hstep : stepItem ext sink? cfg i v st with ⟨st', e?⟩
    rw [hstep] at hrf
    cases e? with
    | none =>
      have h1 : runItems ext sink? cfg (v :: rest) i st
          = runItems ext sink? cfg rest (i + 1) st' := by
        simp only [runItems_cons, hstep]
      rw [h1]
      exact (ih (i + 1) st' j (by omega)).trans hrf
    | some e =>
      have h1 : runItems ext sink? cfg (v :: rest) i st = (st', some e) := by
        simp only [runItems_cons, hstep]
      rw [h1]
      exact hrf

theorem runItems_extract_le (ext : Nat → PyVal → ExtractOutcome)
    (sink? : Option SinkBehavior) (cfg : Config) :
    ∀ (items : List PyVal) (i : Nat) (st : LoopState) (j : Nat),
    countExtract j ((runItems ext sink? cfg items i st).1).trace
      ≤ countExtract j st.trace + 1 := by
  intro items
  induction items with
  | nil => intro i st j; exact Nat.le_succ_of_le (Nat.le_refl _)
  | cons v rest ih =>
    intro i st j
    rcases hstep : stepItem ext sink? cfg i v st with ⟨st', e?⟩
    cases e? with
    | none =>
      have h1 : runItems ext sink? cfg (v :: rest) i st
          = runItems ext sink? cfg rest (i + 1) st' := by
        simp only [runItems_cons, hstep]
      rw [h1]
      by_cases hji : j = i
      · subst hji
        have hself := stepItem_count_extract_self ext sink? cfg j v st
        rw [hstep] at hself
        have hself2 : countExtract j st'.trace ≤ countExtract j st.trace + 1 := hself
        have hfr := (runItems_counts_frame ext sink? cfg rest (j + 1) st' j
          (by omega)).1
        omega
      · have hcf := (stepItem_counts_frame ext sink? cfg i v st j hji).1
        rw [hstep] at hcf
        have hcf2 : countExtract j st'.trace = countExtract j st.trace := hcf
        have := ih (i + 1) st' j
        omega
    | some e =>
      have h1 : runItems ext sink? cfg (v :: rest) i st = (st', some e) := by
        simp only [runItems_cons, hstep]
      rw [h1]
      have hself := stepItem_count_extract_self ext sink? cfg i v st
      rw [hstep] at hself
      by_cases hji : j = i
      · subst hji; exact hself
      · have hcf := (stepItem_counts_frame ext sink? cfg i v st j hji).1
        rw [hstep] at hcf
        omega

theorem runItems_skip_frozen (ext : Nat → PyVal → ExtractOutcome)
    (sink? : Option SinkBehavior) (cfg : Config) :
    ∀ (items : List PyVal) (i : Nat) (st : LoopState) (j : Nat) (w : PyVal),
    i ≤ j → st.results[j]? = some w → hasResult w = true →
    countExtract j ((runItems ext sink? cfg items i st).1).trace
      = countExtract j st.trace := by
  intro items
  induction items with
  | nil => intro i st j w _ _ _; rfl
  | cons v rest ih =>
    intro i st j w hij hget hhas
    by_cases hji : j = i
    · subst hji
      have hstep := stepItem_skip ext sink? cfg j v st w hget hhas
      have h1 : runItems ext sink? cfg (v :: rest) j st
          = runItems ext sink? cfg rest (j + 1)
              { st with trace := st.trace ++ [.skipItem j] } := by
        simp only [runItems_cons, hstep]
      rw [h1]
      have hfr := (runItems_counts_frame ext sink? cfg rest (j + 1)
        { st with trace := st.trace ++ [.skipItem j] } j (by omega)).1
      rw [hfr]
      simp [countExtract_append, countExtract_skipItem]
    · have hlt : i < j := by omega
      have hcf := (stepItem_counts_frame ext sink? cfg i v st j hji).1
      have hrf := stepItem_results_frame ext sink? cfg i v st j hji
      rcases hstep : stepItem ext sink? cfg i v st with ⟨st', e?⟩
      rw [hstep] at hcf hrf
      cases e? with
      | none =>
        have h1 : runItems ext sink? cfg (v :: rest) i st
            = runItems ext sink? cfg rest (i + 1) st' := by
          simp only [runItems_cons, hstep]
        rw [h1]
        have hcf2 : countExtract j st'.trace = countExtract j st.trace := hcf
        have := ih (i + 1) st' j w (by omega) (hrf.trans hget) hhas
        omega
      | some e =>
        have h1 : runItems ext sink? cfg (v :: rest) i st = (st', some e) := by
          simp only [runItems_cons, hstep]
        rw [h1]
        exact hcf

theorem runItems_closed (ext : Nat → PyVal → ExtractOutcome)
    (sink? : Option SinkBehavior) (cfg : Config) :
    ∀ (items : List PyVal) (i : Nat) (st : LoopState),
    countE isClosed ((runItems ext sink? cfg items i st).1).trace
      = countE isClosed st.trace := by
  intro items
  induction items with
  | nil => intro i st; rfl
  | cons v rest ih =>
    intro i st
    have hcl := stepItem_closed ext sink? cfg i v st
    rcases hstep : stepItem ext sink? cfg i v st with ⟨st', e?⟩
    rw [hstep] at hcl
    cases e? with
    | none =>
      have h1 : runItems ext sink? cfg (v :: rest) i st
          = runItems ext sink? cfg rest (i + 1) st' := by
        simp only [runItems_cons, hstep]
      rw [h1, ih]
      exact hcl
    | some e =>
      have h1 : runItems ext sink? cfg (v :: rest) i st = (st', some e) := by
        simp only [runItems_cons, hstep]
      rw [h1]
      exact hcl

theorem runItems_sinkRaised (ext : Nat → PyVal → ExtractOutcome)
    (sink? : Option SinkBehavior) (cfg : Config) :
    ∀ (items : List PyVal) (i : Nat) (st : LoopState),
    (runItems ext sink? cfg items i st).2 = some .sinkRaised →
    ∃ pre, ((runItems ext sink? cfg items i st).1).trace
      = pre ++ [.sinkFlush ((runItems ext sink? cfg items i st).1).results] := by
  intro items
  induction items with
  | nil => intro i st herr; simp [runItems] at herr
  | cons v rest ih =>
    intro i st herr
    rcases hstep : stepItem ext sink? cfg i v st with ⟨st', e?⟩
    cases e? with
    | none =>
      have h1 : runItems ext sink? cfg (v :: rest) i st
          = runItems ext sink? cfg rest (i + 1) st' := by
        simp only [runItems_cons, hstep]
      rw [h1] at herr ⊢
      exact ih (i + 1) st' herr
    | some e =>
      have h1 : runItems ext sink? cfg (v :: rest) i st = (st', some e) := by
        simp only [runItems_cons, hstep]
      rw [h1] at herr ⊢
      have he : e = .sinkRaised := by
        simpa using herr
      subst he
      have := stepItem_sinkRaised ext sink? cfg i v st (by rw [hstep])
      rw [hstep] at this
      exact this

theorem processedVal_of_skip (f : Nat → PyVal → PyVal) (j : Nat) (v prior : PyVal)
    (h : hasResult prior = true) : processedVal f j v prior = prior := by
  simp [processedVal, h]

theorem processedVal_of_run (f : Nat → PyVal → PyVal) (j : Nat) (v prior : PyVal)
    (h : hasResult prior = false) : processedVal f j v prior = stepVal f j v := by
  simp [processedVal, stepVal, h]


/-- Happy-path characterization of the loop: when the checker never raises,
every sink invocation returns normally, and the store is long enough, the
loop completes without an exception and each visited index ends up holding
`processedVal` of its item and prior entry, with the checker called exactly
once on non-skipped non-blank items and a skip recorded exactly on entries
the resume test considers terminal. -/
theorem runItems_char (f : Nat → PyVal → PyVal) (sink? : Option SinkBehavior)
    (cfg : Config) (hsink : SinkOk sink?) :
    ∀ (items : List PyVal) (i : Nat) (st : LoopState),
    i + items.length ≤ st.results.length →
    (runItems (extOk f) sink? cfg items i st).2 = none
    ∧ (∀ k v' prior', items[k]? = some v' → st.results[i + k]? = some prior' →
        ((runItems (extOk f) sink? cfg items i st).1).results[i + k]?
            = some (processedVal f (i + k) v' prior')
        ∧ countExtract (i + k) ((runItems (extOk f) sink? cfg items i st).1).trace
            = countExtract (i + k) st.trace
              + (if hasResult prior' = false ∧ isBlank v' = false then 1 else 0)
        ∧ countSkip (i + k) ((runItems (extOk f) sink? cfg items i st).1).trace
            = countSkip (i + k) st.trace
              + (if hasResult prior' = true then 1 else 0)) := by
  intro items
  induction items with
  | nil =>
    intro i st _
    refine ⟨rfl, ?_⟩
    intro k v' prior' hk _
    simp at hk
  | cons v rest ih =>
    intro i st hlen
    have hi : i < st.results.length := by
      simp only [List.length_cons] at hlen
      omega
    rcases hpr : st.results[i]? with _ | prior
    · exact absurd (List.getElem?_eq_none_iff.mp hpr) (by omega)
    by_cases hhas : hasResult prior
    · -- the prior entry is terminal for the skip test: the item is skipped
      have hstep := stepItem_skip (extOk f) sink? cfg i v st prior hpr hhas
      have h1 : runItems (extOk f) sink? cfg (v :: rest) i st
          = runItems (extOk f) sink? cfg rest (i + 1)
              { st with trace := st.trace ++ [.skipItem i] } := by
        simp only [runItems_cons, hstep]
      have hlen1 : (i + 1) + rest.length
          ≤ ({ st with trace := st.trace ++ [.skipItem i] } : LoopState).results.length := by
        simp only [List.length_cons] at hlen
        simpa using by omega
      obtain ⟨herr, hchar⟩ := ih (i + 1) { st with trace := st.trace ++ [.skipItem i] } hlen1
      rw [h1]
      refine ⟨herr, ?_⟩
      intro k v' prior' hk hpr'
      cases k with
      | zero =>
        simp only [Nat.add_zero] at hpr' ⊢
        have hv : v = v' := by simpa using hk
        have hp : prior = prior' := by
          rw [hpr] at hpr'
          simpa using hpr'
        rw [← hv, ← hp]
        refine ⟨?_, ?_, ?_⟩
        · rw [runItems_results_frame (extOk f) sink? cfg rest (i + 1)
            { st with trace := st.trace ++ [.skipItem i] } i (by omega)]
          simpa [processedVal_of_skip f i v prior hhas] using hpr
        · rw [(runItems_counts_frame (extOk f) sink? cfg rest (i + 1)
            { st with trace := st.trace ++ [.skipItem i] } i (by omega)).1]
          simp [countExtract_append, countExtract_skipItem, hhas]
        · rw [(runItems_counts_frame (extOk f) sink? cfg rest (i + 1)
            { st with trace := st.trace ++ [.skipItem i] } i (by omega)).2]
          simp [countSkip_append, countSkip_skipItem, hhas]
      | succ k =>
        have hidx : i + (k + 1) = (i + 1) + k := by omega
        rw [hidx]
        have hk' : rest[k]? = some v' := by simpa using hk
        have hpr2 : ({ st with trace := st.trace ++ [.skipItem i] } : LoopState).results[(i + 1) + k]?
            = some prior' := by
          rw [← hidx]
          simpa using hpr'
        obtain ⟨hres, hcx, hcs⟩ := hchar k v' prior' hk' hpr2
        refine ⟨hres, ?_, ?_⟩
        · rw [hcx]
          simp [countExtract_append, countExtract_skipItem]
        · rw [hcs]
          have hne2 : ¬ i = (i + 1) + k := by omega
          simp [countSkip_append, countSkip_skipItem, hne2]
    · -- the item is processed
      have hskip : hasResult prior = false := by simpa using hhas
      have hstep := stepItem_run f sink? cfg i v st prior hsink hpr hskip
      set st1 : LoopState :=
        { results := st.results.set i (stepVal f i v),
          trace := st.trace ++ recycleTl cfg i ++ extractTl i v
                     ++ flushTl sink? cfg i (st.results.set i (stepVal f i v)),
          flushCount := st.flushCount + flushInc sink? cfg i } with hst1
      have h1 : runItems (extOk f) sink? cfg (v :: rest) i st
          = runItems (extOk f) sink? cfg rest (i + 1) st1 := by
        simp only [runItems_cons, hstep, hst1]
      have hlen1 : (i + 1) + rest.length ≤ st1.results.length := by
        simp only [hst1, List.length_set]
        simp only [List.length_cons] at hlen
        omega
      obtain ⟨herr, hchar⟩ := ih (i + 1) st1 hlen1
      rw [h1]
      refine ⟨herr, ?_⟩
      intro k v' prior' hk hpr'
      cases k with
      | zero =>
        simp only [Nat.add_zero] at hpr' ⊢
        have hv : v = v' := by simpa using hk
        have hp : prior = prior' := by
          rw [hpr] at hpr'
          simpa using hpr'
        rw [← hv, ← hp]
        refine ⟨?_, ?_, ?_⟩
        · rw [runItems_results_frame (extOk f) sink? cfg rest (i + 1) st1 i (by omega)]
          rw [processedVal_of_run f i v prior hskip]
          simp only [hst1]
          exact List.getElem?_set_self hi
        · rw [(runItems_counts_frame (extOk f) sink? cfg rest (i + 1) st1 i (by omega)).1]
          simp only [hst1]
          simp only [countExtract_append, countExtract_recycleTl,
            countExtract_extractTl, countExtract_flushTl, hskip]
          by_cases hbl : isBlank v <;> simp [hbl]
        · rw [(runItems_counts_frame (extOk f) sink? cfg rest (i + 1) st1 i (by omega)).2]
          simp only [hst1]
          simp only [countSkip_append, countSkip_recycleTl, countSkip_extractTl,
            countSkip_flushTl, hskip]
          simp
      | succ k =>
        have hidx : i + (k + 1) = (i + 1) + k := by omega
        rw [hidx]
        have hk' : rest[k]? = some v' := by simpa using hk
        have hne : i ≠ (i + 1) + k := by omega
        have hpr2 : st1.results[(i + 1) + k]? = some prior' := by
          simp only [hst1]
          rw [List.getElem?_set_ne hne, ← hidx]
          simpa using hpr'
        obtain ⟨hres, hcx, hcs⟩ := hchar k v' prior' hk' hpr2
        refine ⟨hres, ?_, ?_⟩
        · rw [hcx]
          simp only [hst1]
          simp only [countExtract_append, countExtract_recycleTl,
            countExtract_extractTl, countExtract_flushTl]
          have hnc : ¬ (isBlank v = false ∧ i = (i + 1) + k) := by
            rintro ⟨_, h⟩; exact hne h
          simp [hnc]
        · rw [hcs]
          simp only [hst1]
          simp only [countSkip_append, countSkip_recycleTl, countSkip_extractTl,
            countSkip_flushTl]
          omega

theorem sinkOk_none : SinkOk none := by
  intro b h k
  cases h

theorem sinkOk_some (b : SinkBehavior) (hb : ∀ k, b k = true) : SinkOk (some b) := by
  intro b' h k
  cases h
  exact hb k

theorem sinkOk_alwaysTrue : SinkOk (some fun _ => true) :=
  sinkOk_some _ (fun _ => rfl)

/-- Checkpoint cadence of the loop: with no skipped entries ahead, a total
checker and a sink that never raises, the loop performs exactly
`(i + n) / B - i / B` sink invocations for the `n` items it visits starting
at index `i`. -/
theorem runItems_sink_count (f : Nat → PyVal → PyVal) (b : SinkBehavior)
    (cfg : Config) (hb : ∀ k, b k = true) :
    ∀ (items : List PyVal) (i : Nat) (st : LoopState),
    i + items.length ≤ st.results.length →
    (∀ k w, k < items.length → st.results[i + k]? = some w → hasResult w = false) →
    countSink ((runItems (extOk f) (some b) cfg items i st).1).trace
      = countSink st.trace
        + ((i + items.length) / cfg.batchSize - i / cfg.batchSize) := by
  intro items
  induction items with
  | nil =>
    intro i st _ _
    simp [runItems]
  | cons v rest ih =>
    intro i st hlen hns
    have hi : i < st.results.length := by
      simp only [List.length_cons] at hlen
      omega
    rcases hpr : st.results[i]? with _ | prior
    · exact absurd (List.getElem?_eq_none_iff.mp hpr) (by omega)
    have hskip : hasResult prior = false := by
      have := hns 0 prior (by simp) (by simpa using hpr)
      exact this
    have hstep := stepItem_run f (some b) cfg i v st prior
      (sinkOk_some b hb) hpr hskip
    set st1 : LoopState :=
      { results := st.results.set i (stepVal f i v),
        trace := st.trace ++ recycleTl cfg i ++ extractTl i v
                   ++ flushTl (some b) cfg i (st.results.set i (stepVal f i v)),
        flushCount := st.flushCount + flushInc (some b) cfg i } with hst1
    have h1 : runItems (extOk f) (some b) cfg (v :: rest) i st
        = runItems (extOk f) (some b) cfg rest (i + 1) st1 := by
      simp only [runItems_cons, hstep, hst1]
    have hlen1 : (i + 1) + rest.length ≤ st1.results.length := by
      simp only [hst1, List.length_set]
      simp only [List.length_cons] at hlen
      omega
    have hns1 : ∀ k w, k < rest.length → st1.results[(i + 1) + k]? = some w →
        hasResult w = false := by
      intro k w hk hw
      have hne : i ≠ (i + 1) + k := by omega
      rw [hst1] at hw
      rw [List.getElem?_set_ne hne] at hw
      have hidx : (i + 1) + k = i + (k + 1) := by omega
      rw [hidx] at hw
      exact hns (k + 1) w (by simp; omega) hw
    rw [h1, ih (i + 1) st1 hlen1 hns1]
    have hs1 : countSink st1.trace
        = countSink st.trace + flushInc (some b) cfg i := by
      simp only [hst1]
      simp only [countSink_append, countSink_recycleTl, countSink_extractTl,
        countSink_flushTl]
      omega
    rw [hs1]
    have hdiv : (i + 1) / cfg.batchSize
        = i / cfg.batchSize + if cfg.batchSize ∣ (i + 1) then 1 else 0 :=
      Nat.succ_div i cfg.batchSize
    have hmono1 : i / cfg.batchSize ≤ (i + 1) / cfg.batchSize :=
      Nat.div_le_div_right (by omega)
    have hmono2 : (i + 1) / cfg.batchSize
        ≤ (i + 1 + rest.length) / cfg.batchSize :=
      Nat.div_le_div_right (by omega)
    have hflush : flushInc (some b) cfg i
        = if cfg.batchSize ∣ (i + 1) then 1 else 0 := by
      simp only [flushInc, Option.isSome_some, true_and]
      by_cases hd : cfg.batchSize ∣ (i + 1)
      · rw [if_pos ((Nat.dvd_iff_mod_eq_zero).mp hd), if_pos hd]
      · rw [if_neg (fun hm => hd ((Nat.dvd_iff_mod_eq_zero).mpr hm)), if_neg hd]
    rw [hflush]
    have hlc : i + (v :: rest).length = i + 1 + rest.length := by
      simp [List.length_cons]; omega
    rw [hlc]
    by_cases hd : cfg.batchSize ∣ (i + 1) <;> simp [hd] at hdiv ⊢ <;> omega

/-- Recycle cadence of the loop: with no skipped entries ahead, a total
checker and a sink that never raises, the loop performs exactly
`(i + n - 1) / R - (i - 1) / R` browser recycles for the `n` items it
visits starting at index `i` (with truncated subtraction this also covers
the start of the run at `i = 0`). -/
theorem runItems_recycle_count (f : Nat → PyVal → PyVal)
    (sink? : Option SinkBehavior) (cfg : Config) (hsink : SinkOk sink?) :
    ∀ (items : List PyVal) (i : Nat) (st : LoopState),
    i + items.length ≤ st.results.length →
    (∀ k w, k < items.length → st.results[i + k]? = some w → hasResult w = false) →
    countRecycle ((runItems (extOk f) sink? cfg items i st).1).trace
      = countRecycle st.trace
        + ((i + items.length - 1) / cfg.refreshEvery
            - (i - 1) / cfg.refreshEvery) := by
  intro items
  induction items with
  | nil =>
    intro i st _ _
    have : i + ([] : List PyVal).length - 1 = i - 1 := by simp
    rw [this]
    simp [runItems]
  | cons v rest ih =>
    intro i st hlen hns
    have hi : i < st.results.length := by
      simp only [List.length_cons] at hlen
      omega
    rcases hpr : st.results[i]? with _ | prior
    · exact absurd (List.getElem?_eq_none_iff.mp hpr) (by omega)
    have hskip : hasResult prior = false := by
      have := hns 0 prior (by simp) (by simpa using hpr)
      exact this
    have hstep := stepItem_run f sink? cfg i v st prior hsink hpr hskip
    set st1 : LoopState :=
      { results := st.results.set i (stepVal f i v),
        trace := st.trace ++ recycleTl cfg i ++ extractTl i v
                   ++ flushTl sink? cfg i (st.results.set i (stepVal f i v)),
        flushCount := st.flushCount + flushInc sink? cfg i } with hst1
    have h1 : runItems (extOk f) sink? cfg (v :: rest) i st
        = runItems (extOk f) sink? cfg rest (i + 1) st1 := by
      simp only [runItems_cons, hstep, hst1]
    have hlen1 : (i + 1) + rest.length ≤ st1.results.length := by
      simp only [hst1, List.length_set]
      simp only [List.length_cons] at hlen
      omega
    have hns1 : ∀ k w, k < rest.length → st1.results[(i + 1) + k]? = some w →
        hasResult w = false := by
      intro k w hk hw
      have hne : i ≠ (i + 1) + k := by omega
      rw [hst1] at hw
      rw [List.getElem?_set_ne hne] at hw
      have hidx : (i + 1) + k = i + (k + 1) := by omega
      rw [hidx] at hw
      exact hns (k + 1) w (by simp; omega) hw
    rw [h1, ih (i + 1) st1 hlen1 hns1]
    have hr1 : countRecycle st1.trace
        = countRecycle st.trace
          + (if 0 < i ∧ i % cfg.refreshEvery = 0 then 1 else 0) := by
      simp only [hst1]
      simp only [countRecycle_append, countRecycle_recycleTl,
        countRecycle_extractTl, countRecycle_flushTl]
      omega
    rw [hr1]
    have hlc : i + (v :: rest).length = i + 1 + rest.length := by
      simp [List.length_cons]; omega
    rw [hlc]
    rcases Nat.eq_zero_or_pos i with hz | hpos
    · subst hz
      simp [Nat.zero_div]
    · have hone : i - 1 + 1 = i := by omega
      have hdiv : i / cfg.refreshEvery
          = (i - 1) / cfg.refreshEvery
            + if cfg.refreshEvery ∣ i then 1 else 0 := by
        have := Nat.succ_div (i - 1) cfg.refreshEvery
        rw [hone] at this
        exact this
      have hmono1 : (i - 1) / cfg.refreshEvery ≤ i / cfg.refreshEvery :=
        Nat.div_le_div_right (by omega)
      have hmono2 : i / cfg.refreshEvery
          ≤ (i + 1 + rest.length - 1) / cfg.refreshEvery :=
        Nat.div_le_div_right (by omega)
      have hcond : (if 0 < i ∧ i % cfg.refreshEvery = 0 then 1 else 0)
          = if cfg.refreshEvery ∣ i then 1 else 0 := by
        by_cases hd : cfg.refreshEvery ∣ i
        · rw [if_pos ⟨hpos, (Nat.dvd_iff_mod_eq_zero).mp hd⟩, if_pos hd]
        · rw [if_neg (fun hm => hd ((Nat.dvd_iff_mod_eq_zero).mpr hm.2)), if_neg hd]
      rw [hcond]
      have harith : i + 1 + rest.length - 1 = i + rest.length := by omega
      rw [harith] at hmono2 ⊢
      by_cases hd : cfg.refreshEvery ∣ i <;> simp [hd] at hdiv ⊢ <;> omega

/-! ## Wrapper-level lemmas -/

theorem initStore_none (items : List PyVal) :
    initStore none items = List.replicate items.length placeholder := rfl

theorem initStore_some_nil (items : List PyVal) :
    initStore (some []) items = List.replicate items.length placeholder := rfl

theorem initStore_some (seed items : List PyVal) (h : seed ≠ []) :
    initStore (some seed) items = seed := by
  have : seed.isEmpty = false := by
    cases seed with
    | nil => exact absurd rfl h
    | cons a l => rfl
  simp [initStore, this]

theorem finishRun_results (sink? : Option SinkBehavior) (st : LoopState) :
    ((finishRun sink? st).1).results = st.results := by
  cases sink? with
  | none => rfl
  | some b =>
    by_cases hb : b st.flushCount <;> simp [finishRun, hb]

theorem countExtract_nil (j : Nat) : countExtract j [] = 0 := rfl

theorem countSkip_nil (j : Nat) : countSkip j [] = 0 := rfl

theorem countSink_nil : countSink [] = 0 := rfl

theorem countRecycle_nil : countRecycle [] = 0 := rfl

theorem finishRun_count_extract (sink? : Option SinkBehavior) (st : LoopState)
    (j : Nat) :
    countExtract j ((finishRun sink? st).1).trace = countExtract j st.trace := by
  cases sink? with
  | none => simp [finishRun, countExtract_append, countExtract_closedEvt]
  | some b =>
    by_cases hb : b st.flushCount
    · simp [finishRun, hb, countExtract_append]
      rfl
    · simp [finishRun, hb, countExtract_append, countExtract_sinkFlushEvt]

theorem finishRun_count_skip (sink? : Option SinkBehavior) (st : LoopState)
    (j : Nat) :
    countSkip j ((finishRun sink? st).1).trace = countSkip j st.trace := by
  cases sink? with
  | none => simp [finishRun, countSkip_append, countSkip_closedEvt]
  | some b =>
    by_cases hb : b st.flushCount
    · simp [finishRun, hb, countSkip_append]
      rfl
    · simp [finishRun, hb, countSkip_append, countSkip_sinkFlushEvt]

theorem finishRun_count_recycle (sink? : Option SinkBehavior) (st : LoopState) :
    countRecycle ((finishRun sink? st).1).trace = countRecycle st.trace := by
  cases sink? with
  | none => simp [finishRun, countRecycle_append, countRecycle_closedEvt]
  | some b =>
    by_cases hb : b st.flushCount
    · simp [finishRun, hb, countRecycle_append]
      rfl
    · simp [finishRun, hb, countRecycle_append, countRecycle_sinkFlushEvt]

theorem process_of_runItems_err (ext : Nat → PyVal → ExtractOutcome)
    (sink? : Option SinkBehavior) (cfg : Config)
    (existing? : Option (List PyVal)) (items : List PyVal) (e : RunError)
    (h : (runItems ext sink? cfg items 0 ⟨initStore existing? items, [], 0⟩).2
          = some e) :
    process_list_incremental ext sink? cfg existing? items
      = ((runItems ext sink? cfg items 0 ⟨initStore existing? items, [], 0⟩).1,
         some e) := by
  rcases hr : runItems ext sink? cfg items 0 ⟨initStore existing? items, [], 0⟩
    with ⟨st, e?⟩
  rw [hr] at h
  cases e? with
  | none => simp at h
  | some e' =>
    have he : e' = e := by simpa using h
    subst he
    simp [process_list_incremental, hr]

theorem process_of_runItems_ok (ext : Nat → PyVal → ExtractOutcome)
    (sink? : Option SinkBehavior) (cfg : Config)
    (existing? : Option (List PyVal)) (items : List PyVal)
    (h : (runItems ext sink? cfg items 0 ⟨initStore existing? items, [], 0⟩).2
          = none) :
    process_list_incremental ext sink? cfg existing? items
      = finishRun sink?
          (runItems ext sink? cfg items 0 ⟨initStore existing? items, [], 0⟩).1 := by
  rcases hr : runItems ext sink? cfg items 0 ⟨initStore existing? items, [], 0⟩
    with ⟨st, e?⟩
  rw [hr] at h
  cases e? with
  | none => simp [process_list_incremental, hr]
  | some e' => simp at h

theorem process_count_extract (ext : Nat → PyVal → ExtractOutcome)
    (sink? : Option SinkBehavior) (cfg : Config)
    (existing? : Option (List PyVal)) (items : List PyVal) (j : Nat) :
    countExtract j ((process_list_incremental ext sink? cfg existing? items).1).trace
      = countExtract j
          ((runItems ext sink? cfg items 0 ⟨initStore existing? items, [], 0⟩).1).trace := by
  rcases he : (runItems ext sink? cfg items 0 ⟨initStore existing? items, [], 0⟩).2
    with _ | e
  · rw [process_of_runItems_ok ext sink? cfg existing? items he]
    exact finishRun_count_extract sink? _ j
  · rw [process_of_runItems_err ext sink? cfg existing? items e he]

theorem process_count_skip (ext : Nat → PyVal → ExtractOutcome)
    (sink? : Option SinkBehavior) (cfg : Config)
    (existing? : Option (List PyVal)) (items : List PyVal) (j : Nat) :
    countSkip j ((process_list_incremental ext sink? cfg existing? items).1).trace
      = countSkip j
          ((runItems ext sink? cfg items 0 ⟨initStore existing? items, [], 0⟩).1).trace := by
  rcases he : (runItems ext sink? cfg items 0 ⟨initStore existing? items, [], 0⟩).2
    with _ | e
  · rw [process_of_runItems_ok ext sink? cfg existing? items he]
    exact finishRun_count_skip sink? _ j
  · rw [process_of_runItems_err ext sink? cfg existing? items e he]

theorem process_count_recycle (ext : Nat → PyVal → ExtractOutcome)
    (sink? : Option SinkBehavior) (cfg : Config)
    (existing? : Option (List PyVal)) (items : List PyVal) :
    countRecycle ((process_list_incremental ext sink? cfg existing? items).1).trace
      = countRecycle
          ((runItems ext sink? cfg items 0 ⟨initStore existing? items, [], 0⟩).1).trace := by
  rcases he : (runItems ext sink? cfg items 0 ⟨initStore existing? items, [], 0⟩).2
    with _ | e
  · rw [process_of_runItems_ok ext sink? cfg existing? items he]
    exact finishRun_count_recycle sink? _
  · rw [process_of_runItems_err ext sink? cfg existing? items e he]

theorem process_results_length (ext : Nat → PyVal → ExtractOutcome)
    (sink? : Option SinkBehavior) (cfg : Config)
    (existing? : Option (List PyVal)) (items : List PyVal) :
    ((process_list_incremental ext sink? cfg existing? items).1).results.length
      = (initStore existing? items).length := by
  have hlen := runItems_length ext sink? cfg items 0 ⟨initStore existing? items, [], 0⟩
  rcases he : (runItems ext sink? cfg items 0 ⟨initStore existing? items, [], 0⟩).2
    with _ | e
  · rw [process_of_runItems_ok ext sink? cfg existing? items he, finishRun_results]
    exact hlen
  · rw [process_of_runItems_err ext sink? cfg existing? items e he]
    exact hlen

/-- Per-index characterization through the whole wrapper, for a total checker
and a sink that never raises, provided the initial store covers the items. -/
theorem process_char (f : Nat → PyVal → PyVal) (sink? : Option SinkBehavior)
    (cfg : Config) (existing? : Option (List PyVal)) (items : List PyVal)
    (hsink : SinkOk sink?)
    (hlen : items.length ≤ (initStore existing? items).length) :
    ∀ (i : Nat) (v prior : PyVal), items[i]? = some v →
    (initStore existing? items)[i]? = some prior →
    ((process_list_incremental (extOk f) sink? cfg existing? items).1).results[i]?
        = some (processedVal f i v prior)
    ∧ countExtract i
        ((process_list_incremental (extOk f) sink? cfg existing? items).1).trace
        = (if hasResult prior = false ∧ isBlank v = false then 1 else 0)
    ∧ countSkip i
        ((process_list_incremental (extOk f) sink? cfg existing? items).1).trace
        = (if hasResult prior = true then 1 else 0) := by
  intro i v prior hv hp
  obtain ⟨herr, hchar⟩ := runItems_char f sink? cfg hsink items 0
    ⟨initStore existing? items, [], 0⟩ (by simpa using hlen)
  have hp0 : (⟨initStore existing? items, [], 0⟩ : LoopState).results[0 + i]?
      = some prior := by
    simpa [Nat.zero_add] using hp
  obtain ⟨hres, hcx, hcs⟩ := hchar i v prior hv hp0
  simp only [Nat.zero_add] at hres hcx hcs
  rw [process_of_runItems_ok (extOk f) sink? cfg existing? items herr]
  refine ⟨?_, ?_, ?_⟩
  · rw [finishRun_results]
    exact hres
  · rw [finishRun_count_extract]
    simpa [countExtract_nil] using hcx
  · rw [finishRun_count_skip]
    simpa [countSkip_nil] using hcs

/-! ## The claims -/

/-- C9: when the page content contains the most-specific SIAC completion
text (`SIAC_TEXT_MISSING`), which is a superset phrase of the registered
text (`SIAC_TEXT_REGISTERED` occurs inside it), the SIAC extractor's
classification is the most-specific one (`"🚩 DESAPARECIDO"`), never the
less-specific registered one: the missing-text check comes first in
`check_siac_on_page`. -/
theorem siac_ordering_c9 :
    containsSeq SIAC_TEXT_REGISTERED SIAC_TEXT_MISSING = true
    ∧ ∀ content : List Char, containsSeq SIAC_TEXT_MISSING content = true →
        classifySiacContent content = some "🚩 DESAPARECIDO" := by
  constructor
  · decide
  · intro content h
    simp [classifySiacContent, h]

/-- C1 counterexample: for items `["A","B","C","D"]` seeded with
`[Success "x", Unprocessed, Unprocessed, TransientError]` (the source's
encodings `"x"`, `"..."`, `"..."`, `"⚠️ Erro"`), the Extractor is called for
indices 1 and 2 but NOT for index 3: the prior `TransientError` string is a
non-empty non-placeholder string, so the skip test treats it as terminal,
contradicting the claim that index 3 is reprocessed. -/
theorem resume_skip_c1_counterexample :
    countExtract 1 ((process_list_incremental (extOk constOK) none defaultCfg
        (some [.str "x", .str "...", .str "...", .str "⚠️ Erro"])
        [.str "A", .str "B", .str "C", .str "D"]).1).trace = 1
    ∧ countExtract 2 ((process_list_incremental (extOk constOK) none defaultCfg
        (some [.str "x", .str "...", .str "...", .str "⚠️ Erro"])
        [.str "A", .str "B", .str "C", .str "D"]).1).trace = 1
    ∧ countExtract 3 ((process_list_incremental (extOk constOK) none defaultCfg
        (some [.str "x", .str "...", .str "...", .str "⚠️ Erro"])
        [.str "A", .str "B", .str "C", .str "D"]).1).trace = 0 := by
  decide

/-- C1 amended: the resume/skip rule of the code treats EVERY seed entry
that is a string whose stripped form is neither empty nor `"..."` as
terminal — including the `TransientError`/`UnknownOutcome` encodings
(`"⚠️ Erro"`, `"❓ Desconhecido"`) — and never calls the Extractor for such
an index; in the scenario, the Extractor is called exactly for indices 1
and 2. -/
theorem resume_skip_c1_amended :
    ∀ (ext : Nat → PyVal → ExtractOutcome) (sink? : Option SinkBehavior)
      (cfg : Config) (items seed : List PyVal) (i : Nat) (w : PyVal),
    seed ≠ [] → seed[i]? = some w → hasResult w = true →
    countExtract i
      ((process_list_incremental ext sink? cfg (some seed) items).1).trace = 0 := by
  intro ext sink? cfg items seed i w hne hget hhas
  rw [process_count_extract]
  rw [initStore_some seed items hne]
  exact runItems_skip_frozen ext sink? cfg items 0 ⟨seed, [], 0⟩ i w
    (Nat.zero_le i) hget hhas

/-- C1 witness: the amended skip rule applied to the seeded scenario at
index 0, whose prior entry `"x"` is terminal. -/
theorem resume_skip_c1_amended_witness :
    countExtract 0 ((process_list_incremental (extOk constOK) none defaultCfg
        (some [.str "x", .str "...", .str "...", .str "⚠️ Erro"])
        [.str "A", .str "B", .str "C", .str "D"]).1).trace = 0 :=
  resume_skip_c1_amended (extOk constOK) none defaultCfg
    [.str "A", .str "B", .str "C", .str "D"]
    [.str "x", .str "...", .str "...", .str "⚠️ Erro"] 0 (.str "x")
    (by decide) (by decide) (by decide)

/-- C2 counterexample: with a seed longer than the items, the returned
sequence keeps the seed's length — here `items = ["A"]` with a 2-entry seed
returns a 2-entry store, so `len(result) == len(items)` fails. -/
theorem store_length_c2_counterexample :
    ((process_list_incremental (extOk constOK) none defaultCfg
        (some [.str "x", .str "y"]) [.str "A"]).1).results.length
      ≠ ([PyVal.str "A"] : List PyVal).length := by
  decide

/-- C2 amended: the orchestrator does NOT pad or truncate the seed. With no
seed, or an empty seed (both falsy in Python), the store is initialized to
all-placeholders of length `len(items)` and `len(result) = len(items)`; a
non-empty seed is used as-is, so `len(result) = len(seed)` (longer seeds
survive in full, and a seed shorter than the items makes the run abort with
an `IndexError` at the first out-of-range index, as the concrete run in the
last conjunct shows). -/
theorem store_length_c2_amended :
    ∀ (ext : Nat → PyVal → ExtractOutcome) (sink? : Option SinkBehavior)
      (cfg : Config) (items : List PyVal),
    (((process_list_incremental ext sink? cfg none items).1).results.length
        = items.length)
    ∧ (((process_list_incremental ext sink? cfg (some []) items).1).results.length
        = items.length)
    ∧ (∀ seed : List PyVal, seed ≠ [] →
        ((process_list_incremental ext sink? cfg (some seed) items).1).results.length
          = seed.length)
    ∧ ((process_list_incremental (extOk constOK) none defaultCfg
          (some [.str "x"]) [.str "A", .str "B"]).2 = some .indexError) := by
  intro ext sink? cfg items
  refine ⟨?_, ?_, ?_, by decide⟩
  · rw [process_results_length, initStore_none]
    simp
  · rw [process_results_length, initStore_some_nil]
    simp
  · intro seed hne
    rw [process_results_length, initStore_some seed items hne]

/-- C5 counterexample: two concrete runs of one item. First, a checker that
raises (a Session-fatal fault escaping the Extractor): the run aborts with
the exception after exactly one Extractor call and zero recycles — no
forced recycle, no same-item retry, no `TransientError` marking. Second, a
checker that absorbs the fault and returns the source's `TransientError`
string `"⚠️ Erro"`: the item is marked directly, again with one call and
zero recycles. -/
theorem session_crash_c5_counterexample :
    (process_list_incremental raiseExt none defaultCfg none [.str "A"]).2
        = some (.extractorRaised 0)
    ∧ countExtract 0 ((process_list_incremental raiseExt none defaultCfg none
        [.str "A"]).1).trace = 1
    ∧ countRecycle ((process_list_incremental raiseExt none defaultCfg none
        [.str "A"]).1).trace = 0
    ∧ ((process_list_incremental (extOk fun _ _ => .str "⚠️ Erro") none defaultCfg
        none [.str "A"]).1).results = [.str "⚠️ Erro"]
    ∧ countExtract 0 ((process_list_incremental (extOk fun _ _ => .str "⚠️ Erro")
        none defaultCfg none [.str "A"]).1).trace = 1
    ∧ countRecycle ((process_list_incremental (extOk fun _ _ => .str "⚠️ Erro")
        none defaultCfg none [.str "A"]).1).trace = 0 := by
  decide

/-- C5 amended: the orchestrator has no Session-crash handling at all: in
every run — whatever the checker, sink, configuration and seed do — the
Extractor is called at most once per index, so there is never a forced
recycle followed by a same-item retry; an exception escaping the Extractor
simply aborts the run. -/
theorem session_crash_c5_amended :
    ∀ (ext : Nat → PyVal → ExtractOutcome) (sink? : Option SinkBehavior)
      (cfg : Config) (existing? : Option (List PyVal)) (items : List PyVal)
      (i : Nat),
    countExtract i
      ((process_list_incremental ext sink? cfg existing? items).1).trace ≤ 1 := by
  intro ext sink? cfg existing? items i
  rw [process_count_extract]
  have := runItems_extract_le ext sink? cfg items 0
    ⟨initStore existing? items, [], 0⟩ i
  simpa [countExtract_nil] using this

/-- C3 counterexample: with a sink configured and a checker that raises on
the single item, the run aborts: the Sink is never invoked (no final flush)
and the browser close never happens — both are happy-path tail code, not
guaranteed cleanup. -/
theorem final_flush_c3_counterexample :
    countSink ((process_list_incremental raiseExt (some sinkTrue) defaultCfg none
        [.str "A"]).1).trace = 0
    ∧ Event.browserClosed ∉ ((process_list_incremental raiseExt (some sinkTrue)
        defaultCfg none [.str "A"]).1).trace
    ∧ (process_list_incremental raiseExt (some sinkTrue) defaultCfg none
        [.str "A"]).2 = some (.extractorRaised 0) := by
  decide

/-- C3 amended: with a sink configured, the final flush and the browser
close are executed only when the loop (and the final flush itself) complete
without an exception: a run that returns no error ends its trace with the
final `sinkFlush` of the returned store followed by `browserClosed`; a run
that ends in any exception never closes the browser (and, as the
counterexample shows, may never flush at all). -/
theorem final_flush_c3_amended :
    ∀ (ext : Nat → PyVal → ExtractOutcome) (b : SinkBehavior) (cfg : Config)
      (existing? : Option (List PyVal)) (items : List PyVal),
    ((process_list_incremental ext (some b) cfg existing? items).2 = none →
      ∃ pre, ((process_list_incremental ext (some b) cfg existing? items).1).trace
        = pre ++ [.sinkFlush ((process_list_incremental ext (some b) cfg
                    existing? items).1).results,
                  .browserClosed])
    ∧ (∀ e, (process_list_incremental ext (some b) cfg existing? items).2 = some e →
        Event.browserClosed ∉
          ((process_list_incremental ext (some b) cfg existing? items).1).trace) := by
  intro ext b cfg existing? items
  have hcl0 : countE isClosed
      ((runItems ext (some b) cfg items 0
        ⟨initStore existing? items, [], 0⟩).1).trace = 0 := by
    rw [runItems_closed]
    rfl
  have hnot : Event.browserClosed ∉
      ((runItems ext (some b) cfg items 0
        ⟨initStore existing? items, [], 0⟩).1).trace := by
    intro hmem
    have hpos := countE_pos_of_mem hmem (show isClosed Event.browserClosed = true from rfl)
    omega
  rcases he : (runItems ext (some b) cfg items 0
      ⟨initStore existing? items, [], 0⟩).2 with _ | e
  · rw [process_of_runItems_ok ext (some b) cfg existing? items he]
    by_cases hb : b ((runItems ext (some b) cfg items 0
        ⟨initStore existing? items, [], 0⟩).1).flushCount
    · constructor
      · intro _
        refine ⟨((runItems ext (some b) cfg items 0
            ⟨initStore existing? items, [], 0⟩).1).trace, ?_⟩
        simp [finishRun, hb]
      · intro e' he'
        simp [finishRun, hb] at he'
    · constructor
      · intro hnone
        simp [finishRun, hb] at hnone
      · intro e' _
        simp only [finishRun, hb, if_neg]
        simp only [Bool.false_eq_true, if_false]
        intro hmem
        rcases List.mem_append.mp hmem with hmem' | hmem'
        · exact hnot hmem'
        · simp at hmem'
  · rw [process_of_runItems_err ext (some b) cfg existing? items e he]
    constructor
    · intro hnone
      simp at hnone
    · intro e' _
      exact hnot

/-- C4 counterexample: with `batch_size = 1` and a sink whose flush raises,
the run aborts right after the first flush: the error propagates
(`sinkRaised`), the second item is never extracted, and no later flush
occurs — the flush failure is not caught. -/
theorem flush_failure_c4_counterexample :
    (process_list_incremental (extOk constOK) (some sinkFalse) ⟨1, 50⟩ none
        [.str "A", .str "B"]).2 = some .sinkRaised
    ∧ countExtract 1 ((process_list_incremental (extOk constOK) (some sinkFalse)
        ⟨1, 50⟩ none [.str "A", .str "B"]).1).trace = 0
    ∧ countSink ((process_list_incremental (extOk constOK) (some sinkFalse)
        ⟨1, 50⟩ none [.str "A", .str "B"]).1).trace = 1 := by
  decide

/-- C4 amended: a Sink flush exception is not caught anywhere: whenever a
run ends with `sinkRaised`, the failing flush is the very last event of the
trace — nothing after it runs, so the remaining items are not processed and
no later flush occurs — and the snapshot handed to that failing flush is
exactly the returned store (the store is not rolled back, but the run is
aborted). -/
theorem flush_failure_c4_amended :
    ∀ (ext : Nat → PyVal → ExtractOutcome) (sink? : Option SinkBehavior)
      (cfg : Config) (existing? : Option (List PyVal)) (items : List PyVal),
    (process_list_incremental ext sink? cfg existing? items).2 = some .sinkRaised →
    ∃ pre, ((process_list_incremental ext sink? cfg existing? items).1).trace
      = pre ++ [.sinkFlush
          ((process_list_incremental ext sink? cfg existing? items).1).results] := by
  intro ext sink? cfg existing? items herr
  rcases he : (runItems ext sink? cfg items 0
      ⟨initStore existing? items, [], 0⟩).2 with _ | e
  · rw [process_of_runItems_ok ext sink? cfg existing? items he] at herr ⊢
    cases sink? with
    | none => simp [finishRun] at herr
    | some b =>
      by_cases hb : b ((runItems ext (some b) cfg items 0
          ⟨initStore existing? items, [], 0⟩).1).flushCount
      · simp [finishRun, hb] at herr
      · refine ⟨((runItems ext (some b) cfg items 0
            ⟨initStore existing? items, [], 0⟩).1).trace, ?_⟩
        simp [finishRun, hb]
  · rw [process_of_runItems_err ext sink? cfg existing? items e he] at herr ⊢
    have he' : e = .sinkRaised := by simpa using herr
    subst he'
    exact runItems_sinkRaised ext sink? cfg items 0
      ⟨initStore existing? items, [], 0⟩ he

/-- C4 witness: the amended statement at the counterexample's concrete run,
whose flush on the first item raises. -/
theorem flush_failure_c4_amended_witness :
    ∃ pre, ((process_list_incremental (extOk constOK) (some sinkFalse) ⟨1, 50⟩ none
        [.str "A", .str "B"]).1).trace
      = pre ++ [.sinkFlush ((process_list_incremental (extOk constOK) (some sinkFalse)
          ⟨1, 50⟩ none [.str "A", .str "B"]).1).results] :=
  flush_failure_c4_amended (extOk constOK) (some sinkFalse) ⟨1, 50⟩ none
    [.str "A", .str "B"] (by decide)

theorem countSink_flushClosedPair (s : List PyVal) :
    countSink [Event.sinkFlush s, Event.browserClosed] = 1 := rfl

/-- C6: checkpoint cadence. For `batch_size = B ≥ 1`, `refresh_every ≥ 1`,
a fresh run (no skips), a total checker and a sink configured, the Sink is
invoked exactly `⌊N / B⌋ + 1` times over `N` items, and the last invocation
is the mandatory final flush carrying the full returned store, followed
only by the browser close. -/
theorem checkpoint_cadence_c6 :
    ∀ (f : Nat → PyVal → PyVal) (cfg : Config) (items : List PyVal),
    1 ≤ cfg.batchSize → 1 ≤ cfg.refreshEvery →
    countSink ((process_list_incremental (extOk f) (some sinkTrue) cfg none
        items).1).trace
      = items.length / cfg.batchSize + 1
    ∧ ∃ pre, ((process_list_incremental (extOk f) (some sinkTrue) cfg none
        items).1).trace
        = pre ++ [.sinkFlush ((process_list_incremental (extOk f) (some sinkTrue)
            cfg none items).1).results,
          .browserClosed] := by
  intro f cfg items _ _
  have hlen : 0 + items.length
      ≤ (⟨initStore none items, [], 0⟩ : LoopState).results.length := by
    simp [initStore_none]
  have hns : ∀ k w, k < items.length →
      (⟨initStore none items, [], 0⟩ : LoopState).results[0 + k]? = some w →
      hasResult w = false := by
    intro k w hk hw
    simp only [initStore_none, Nat.zero_add] at hw
    rw [List.getElem?_replicate, if_pos hk] at hw
    have hwp : w = placeholder := by simpa using hw.symm
    subst hwp
    rfl
  have herr := (runItems_char f (some sinkTrue) cfg
    (sinkOk_some sinkTrue fun _ => rfl) items 0
    ⟨initStore none items, [], 0⟩ hlen).1
  have hsc := runItems_sink_count f sinkTrue cfg (fun _ => rfl) items 0
    ⟨initStore none items, [], 0⟩ hlen hns
  have hsc' : countSink ((runItems (extOk f) (some sinkTrue) cfg items 0
      ⟨initStore none items, [], 0⟩).1).trace
      = items.length / cfg.batchSize := by
    simpa [countSink_nil] using hsc
  rw [process_of_runItems_ok (extOk f) (some sinkTrue) cfg none items herr]
  have hb : sinkTrue ((runItems (extOk f) (some sinkTrue) cfg items 0
      ⟨initStore none items, [], 0⟩).1).flushCount = true := rfl
  constructor
  · simp only [finishRun, hb, if_pos]
    simp only [List.append_assoc, List.cons_append, List.nil_append]
    rw [countSink_append, hsc', countSink_flushClosedPair]
  · refine ⟨((runItems (extOk f) (some sinkTrue) cfg items 0
      ⟨initStore none items, [], 0⟩).1).trace, ?_⟩
    rw [finishRun_results]
    simp [finishRun, hb]

/-- C6 witness: scenario C — `batch_size = 2`, five items, all succeed: the
Sink is called three times (after items 2 and 4, and the final flush), the
final flush being last. -/
theorem checkpoint_cadence_c6_witness :
    countSink ((process_list_incremental (extOk constOK) (some sinkTrue) ⟨2, 50⟩
        none [.str "1", .str "2", .str "3", .str "4", .str "5"]).1).trace = 3
    ∧ ∃ pre, ((process_list_incremental (extOk constOK) (some sinkTrue) ⟨2, 50⟩
        none [.str "1", .str "2", .str "3", .str "4", .str "5"]).1).trace
        = pre ++ [.sinkFlush ((process_list_incremental (extOk constOK)
            (some sinkTrue) ⟨2, 50⟩ none
            [.str "1", .str "2", .str "3", .str "4", .str "5"]).1).results,
          .browserClosed] := by
  have h := checkpoint_cadence_c6 constOK ⟨2, 50⟩
    [.str "1", .str "2", .str "3", .str "4", .str "5"] (by decide) (by decide)
  exact ⟨by simpa using h.1, h.2⟩

/-- C7: recycle cadence. For `refresh_every = R ≥ 1`, a fresh run of `N`
items with no skips, a total checker and a sink that never raises
(whatever the batch size `≥ 1` is), the Session is recycled exactly
`⌊(N - 1) / R⌋` times — at the processed indices `R, 2R, ...` below `N` —
independent of `batch_size`. -/
theorem recycle_cadence_c7 :
    ∀ (f : Nat → PyVal → PyVal) (sink? : Option SinkBehavior) (cfg : Config)
      (items : List PyVal),
    SinkOk sink? → 1 ≤ cfg.batchSize → 1 ≤ cfg.refreshEvery →
    countRecycle ((process_list_incremental (extOk f) sink? cfg none
        items).1).trace
      = (items.length - 1) / cfg.refreshEvery := by
  intro f sink? cfg items hsink _ _
  rw [process_count_recycle]
  have hlen : 0 + items.length
      ≤ (⟨initStore none items, [], 0⟩ : LoopState).results.length := by
    simp [initStore_none]
  have hns : ∀ k w, k < items.length →
      (⟨initStore none items, [], 0⟩ : LoopState).results[0 + k]? = some w →
      hasResult w = false := by
    intro k w hk hw
    simp only [initStore_none, Nat.zero_add] at hw
    rw [List.getElem?_replicate, if_pos hk] at hw
    have hwp : w = placeholder := by simpa using hw.symm
    subst hwp
    rfl
  have h := runItems_recycle_count f sink? cfg hsink items 0
    ⟨initStore none items, [], 0⟩ hlen hns
  simpa [countRecycle_nil, Nat.zero_sub, Nat.zero_div] using h

/-- C7 witness: `refresh_every = 2` and five items give `⌊(5-1)/2⌋ = 2`
recycles (at indices 2 and 4). -/
theorem recycle_cadence_c7_witness :
    countRecycle ((process_list_incremental (extOk constOK) none ⟨10, 2⟩ none
        [.str "1", .str "2", .str "3", .str "4", .str "5"]).1).trace = 2 := by
  have h := recycle_cadence_c7 constOK none ⟨10, 2⟩
    [.str "1", .str "2", .str "3", .str "4", .str "5"] sinkOk_none
    (by decide) (by decide)
  simpa using h

/-- C8 counterexample: the items `" nan "` and `"nan.0"` both normalize
(trim, strip the trailing `".0"`) to the sentinel `"nan"`, yet the code's
blank test — which checks the raw value, lowercased but NOT trimmed and NOT
`".0"`-stripped — does not classify them as blank: the Extractor IS called
for both and neither gets `"N/A"`. -/
theorem blank_handling_c8_counterexample :
    countExtract 0 ((process_list_incremental (extOk constOK) none defaultCfg none
        [.str " nan ", .str "nan.0"]).1).trace = 1
    ∧ countExtract 1 ((process_list_incremental (extOk constOK) none defaultCfg none
        [.str " nan ", .str "nan.0"]).1).trace = 1
    ∧ ((process_list_incremental (extOk constOK) none defaultCfg none
        [.str " nan ", .str "nan.0"]).1).results
      = [.str "OK", .str "OK"] := by
  decide

/-- C8 amended: in a fresh run, an item is assigned `"N/A"` without an
Extractor call exactly when the code's blank test holds of its RAW value:
its raw string strips to empty, or its raw string lowercased (without
trimming, without stripping a trailing `".0"`) equals `"nan"`; every other
item is passed to the Extractor exactly once (after normalization). -/
theorem blank_handling_c8_amended :
    ∀ (f : Nat → PyVal → PyVal) (cfg : Config) (items : List PyVal) (i : Nat)
      (v : PyVal),
    1 ≤ cfg.refreshEvery → items[i]? = some v →
    ((isBlank v = true →
        countExtract i ((process_list_incremental (extOk f) none cfg none
            items).1).trace = 0
        ∧ ((process_list_incremental (extOk f) none cfg none items).1).results[i]?
            = some (.str "N/A"))
    ∧ (isBlank v = false →
        countExtract i ((process_list_incremental (extOk f) none cfg none
            items).1).trace = 1
        ∧ ((process_list_incremental (extOk f) none cfg none items).1).results[i]?
            = some (f i (cleanItem v)))) := by
  intro f cfg items i v _ hv
  have hi : i < items.length := by
    by_contra hcon
    rw [List.getElem?_eq_none (by omega)] at hv
    cases hv
  have hlen : items.length ≤ (initStore none items).length := by
    simp [initStore_none]
  have hpl : (initStore none items)[i]? = some placeholder := by
    simp [initStore_none, List.getElem?_replicate, hi]
  obtain ⟨hres, hcx, hcs⟩ := process_char f none cfg none items sinkOk_none hlen
    i v placeholder hv hpl
  have hplf : hasResult placeholder = false := rfl
  constructor
  · intro hbl
    refine ⟨?_, ?_⟩
    · rw [hcx]
      simp [hbl]
    · rw [hres]
      simp [processedVal, hplf, hbl]
  · intro hbl
    refine ⟨?_, ?_⟩
    · rw [hcx]
      simp [hplf, hbl]
    · rw [hres]
      simp [processedVal, hplf, hbl]

/-- C8 witness: the amended rule at two concrete runs — `""` is blank and
gets `"N/A"` with no Extractor call; `" nan "` is NOT blank for the code
and is extracted once. -/
theorem blank_handling_c8_amended_witness :
    (countExtract 0 ((process_list_incremental (extOk constOK) none defaultCfg none
        [.str ""]).1).trace = 0
      ∧ ((process_list_incremental (extOk constOK) none defaultCfg none
        [.str ""]).1).results[0]? = some (.str "N/A"))
    ∧ (countExtract 0 ((process_list_incremental (extOk constOK) none defaultCfg none
        [.str " nan "]).1).trace = 1
      ∧ ((process_list_incremental (extOk constOK) none defaultCfg none
        [.str " nan "]).1).results[0]?
          = some (constOK 0 (cleanItem (.str " nan ")))) :=
  ⟨(blank_handling_c8_amended constOK defaultCfg [.str ""] 0 (.str "")
      (by decide) (by decide)).1 (by decide),
   (blank_handling_c8_amended constOK defaultCfg [.str " nan "] 0 (.str " nan ")
      (by decide) (by decide)).2 (by decide)⟩

/-- C10: the skip test (`isinstance(results[i], str) and strip not in
["", "..."]`) treats only suitable strings as terminal; a non-string prior
entry — a tuple, as produced by the multi-field checkers — is never
skipped: on resume the index is reprocessed (no skip event, the Extractor
is called once when the item is not blank) and the decided tuple is
overwritten. -/
theorem tuple_prior_c10 :
    ∀ (f : Nat → PyVal → PyVal) (cfg : Config) (items seed : List PyVal)
      (i : Nat) (h : String) (tl : List String) (v : PyVal),
    1 ≤ cfg.refreshEvery → seed ≠ [] → items.length ≤ seed.length →
    seed[i]? = some (.tup h tl) → items[i]? = some v →
    countSkip i ((process_list_incremental (extOk f) none cfg (some seed)
        items).1).trace = 0
    ∧ ((process_list_incremental (extOk f) none cfg (some seed) items).1).results[i]?
        = some (if isBlank v then .str "N/A" else f i (cleanItem v))
    ∧ countExtract i ((process_list_incremental (extOk f) none cfg (some seed)
        items).1).trace
        = (if isBlank v then 0 else 1) := by
  intro f cfg items seed i h tl v _ hne hlen hseed hv
  have hlen' : items.length ≤ (initStore (some seed) items).length := by
    rw [initStore_some seed items hne]
    exact hlen
  have hp : (initStore (some seed) items)[i]? = some (.tup h tl) := by
    rw [initStore_some seed items hne]
    exact hseed
  obtain ⟨hres, hcx, hcs⟩ := process_char f none cfg (some seed) items
    sinkOk_none hlen' i v (.tup h tl) hv hp
  have htf : hasResult (.tup h tl) = false := rfl
  refine ⟨?_, ?_, ?_⟩
  · rw [hcs]
    simp [htf]
  · rw [hres]
    simp [processedVal, htf]
  · rw [hcx]
    by_cases hbv : isBlank v <;> simp [htf, hbv]

/-- C10 witness: a seed whose entry 0 is the tuple `("a",)` — a decided
outcome — is reprocessed: no skip, the item `"Z"` is extracted once and the
tuple is overwritten. -/
theorem tuple_prior_c10_witness :
    countSkip 0 ((process_list_incremental (extOk constOK) none defaultCfg
        (some [.tup "a" []]) [.str "Z"]).1).trace = 0
    ∧ ((process_list_incremental (extOk constOK) none defaultCfg
        (some [.tup "a" []]) [.str "Z"]).1).results[0]?
        = some (if isBlank (.str "Z") then .str "N/A"
            else constOK 0 (cleanItem (.str "Z")))
    ∧ countExtract 0 ((process_list_incremental (extOk constOK) none defaultCfg
        (some [.tup "a" []]) [.str "Z"]).1).trace
        = (if isBlank (.str "Z") then 0 else 1) :=
  tuple_prior_c10 constOK defaultCfg [.str "Z"] [.tup "a" []] 0 "a" [] (.str "Z")
    (by decide) (by decide) (by decide) (by decide) (by decide)
